import Mathlib

/-!
Shallow embedding of the two example notebooks of this repository
(the single-node capacity-expansion notebook and the demand-elasticity
notebook).  Python floats are modelled as exact rationals (`ℚ`); a Python
expression that raises (division by zero) is modelled with `Option`.
Definitions are translated directly from the notebook cells; theorems
about them follow after all definitions.
-/

/-- `annuity` from the capacity-expansion notebook:
`def annuity(r, n): return r / (1.0 - 1.0 / (1.0 + r) ** n)`.
In Python, `1.0 / (1.0 + r) ** n` raises when `(1+r)^n = 0`, and the outer
division raises when the denominator `1 - 1/(1+r)^n` is zero; both failure
modes are modelled by `none`. -/
def annuity (r : ℚ) (n : ℕ) : Option ℚ :=
  if (1 + r) ^ n = 0 then none
  else if 1 - 1 / (1 + r) ^ n = 0 then none
  else some (r / (1 - 1 / (1 + r) ^ n))

/-- `costs["marginal_cost"] = costs["VOM"] + costs["fuel"] / costs["efficiency"]`. -/
def marginal_cost (vom fuel efficiency : ℚ) : ℚ :=
  vom + fuel / efficiency

/-- `costs["capital_cost"] = (a + costs["FOM"] / 100) * costs["investment"]`. -/
def capital_cost (a fom investment : ℚ) : ℚ :=
  (a + fom / 100) * investment

/-- One row of the long-format `costs` table downloaded by the
capacity-expansion notebook: indexed by (technology, parameter), with a
`value` (possibly NaN, modelled as `none`) and a `unit` string. -/
structure CostRow where
  tech : String
  param : String
  value : Option ℚ
  unit : String
deriving DecidableEq

/-- Substring containment, the semantics of pandas `str.contains` with a
plain (non-regex-special) pattern such as `"/kW"`. -/
def strContains (s pat : String) : Bool :=
  (List.range (s.length + 1)).any
    (fun i => (s.toList.drop i).take pat.length == pat.toList)

/-- `costs.loc[costs.unit.str.contains("/kW"), "value"] *= 1e3`, acting on
one row: rows whose unit contains `"/kW"` have their value multiplied by
1000, all other rows are untouched. -/
def scaleKW (row : CostRow) : CostRow :=
  if strContains row.unit "/kW" then
    { row with value := row.value.map (fun v => v * 1000) }
  else row

/-- The per-column defaults of
`.fillna({"discount rate": 0.07, "lifetime": 20, "FOM": 0})`. -/
def fillnaDefaults (param : String) : Option ℚ :=
  if param = "discount rate" then some (7 / 100)
  else if param = "lifetime" then some 20
  else if param = "FOM" then some 0
  else none

/-- `fillna` on a single cell of the unstacked table: a present value is
kept; a missing value is replaced by the column default when one exists. -/
def fillCell (param : String) (v : Option ℚ) : Option ℚ :=
  match v with
  | some x => some x
  | none =>
    match fillnaDefaults param with
    | some d => some d
    | none => none

/-- The whole costs-preprocessing pipeline of the capacity-expansion
notebook, per row: the `/kW` rescaling followed by the `fillna`. -/
def preprocessRow (row : CostRow) : CostRow :=
  let r := scaleKW row
  { r with value := fillCell r.param r.value }

/-- Preprocessing applied to the whole downloaded table. -/
def preprocessCosts (rows : List CostRow) : List CostRow :=
  rows.map preprocessRow

/-- Non-increasing ordering on rationals, the comparator corresponding to
`sort_values(ascending=False)`. -/
def descRel (a b : ℚ) : Prop := b ≤ a

instance descRelDecidable : DecidableRel descRel :=
  fun a b => inferInstanceAs (Decidable (b ≤ a))

instance descRelTotal : IsTotal ℚ descRel := ⟨fun a b => le_total b a⟩

instance descRelTrans : IsTrans ℚ descRel :=
  ⟨fun _ _ _ h1 h2 => le_trans h2 h1⟩

/-- A pandas Series: a list of index labels paired with a list of values. -/
structure Series where
  index : List ℚ
  values : List ℚ
deriving DecidableEq

/-- `np.arange(start, stop, step)` for a positive step: the list
`start, start + step, start + 2*step, ...` of length
`⌈(stop - start) / step⌉`. -/
def arange (start stop step : ℚ) : List ℚ :=
  if step ≤ 0 then []
  else (List.range (Int.toNat ⌈(stop - start) / step⌉)).map
    (fun i : ℕ => start + (i : ℚ) * step)

/-- `get_price_duration` from the demand-elasticity notebook: take the
marginal-price column of the requested bus (here passed as `prices`), sort
it descending, reset the index, and set the index to
`np.arange(0, 100, 100 / len(s.index))`.  With an empty column the step
expression `100 / len(s.index)` raises `ZeroDivisionError`, modelled by
`none`. -/
def get_price_duration (prices : List ℚ) : Option Series :=
  let s := prices.insertionSort descRel
  if prices.length = 0 then none
  else some
    { index := arange 0 100 (100 / (prices.length : ℚ))
      values := s }

/-- The network-affecting and external-facing operations the notebook
cells perform, in the order they appear. -/
inductive NetOp where
  | download (url : String)
  | newNetwork
  | loadExample (name : String)
  | add (compType name : String)
  | remove (compType name : String)
  | set_snapshots
  | snapshotWeightingsAssign
  | locAssign (frame name attr : String)
  | optimize (solver : String)
  | statistic (name : String)
deriving DecidableEq

/-- The step sequence of the single-node capacity-expansion notebook. -/
def capacitySteps : List NetOp :=
  [ .download "costs_2030.csv"
  , .download "time-series.csv"
  , .newNetwork
  , .add "Bus" "electricity"
  , .set_snapshots
  , .snapshotWeightingsAssign
  , .add "Carrier" "carriers"
  , .add "Load" "demand"
  , .add "Generator" "load shedding"
  , .add "Generator" "wind"
  , .add "Generator" "solar"
  , .add "StorageUnit" "battery storage"
  , .add "Bus" "hydrogen"
  , .add "Link" "electrolysis"
  , .add "Link" "turbine"
  , .add "Store" "hydrogen storage"
  , .optimize "highs"
  , .statistic "capex"
  , .statistic "opex"
  , .statistic "optimal_capacity"
  , .statistic "energy_balance"
  , .statistic "marginal_price" ]

/-- The step sequence of the demand-elasticity notebook. -/
def elasticitySteps : List NetOp :=
  [ .loadExample "model_energy"
  , .remove "Load" "demand"
  , .remove "Generator" "load shedding"
  , .add "Load" "demand"
  , .optimize ""
  , .statistic "marginal_price"
  , .statistic "optimal_capacity"
  , .add "Generator" "load-shedding"
  , .optimize ""
  , .statistic "marginal_price"
  , .statistic "optimal_capacity"
  , .remove "Generator" "load-shedding"
  , .add "Generator" "load-shedding"
  , .optimize "gurobi"
  , .statistic "marginal_price"
  , .statistic "optimal_capacity"
  , .statistic "generators_t.p"
  , .locAssign "generators" "load-shedding" "p_nom_max"
  , .locAssign "generators" "load-shedding" "marginal_cost_quadratic"
  , .optimize "gurobi"
  , .statistic "marginal_price"
  , .statistic "optimal_capacity"
  , .statistic "generators_t.p" ]

/-- All notebook steps in order. -/
def allSteps : List NetOp := capacitySteps ++ elasticitySteps

/-- Whether a step constructs or mutates the network object. -/
def mutatesNetwork : NetOp → Bool
  | .download _ => false
  | .newNetwork => true
  | .loadExample _ => true
  | .add _ _ => true
  | .remove _ _ => true
  | .set_snapshots => true
  | .snapshotWeightingsAssign => true
  | .locAssign _ _ _ => true
  | .optimize _ => true
  | .statistic _ => false

/-- Whether a step is one of the three high-level API calls `add`,
`remove`, `optimize` named by the claim. -/
def isAddRemoveOptimize : NetOp → Bool
  | .add _ _ => true
  | .remove _ _ => true
  | .optimize _ => true
  | _ => false

/-- Whether a step is any high-level API method call on the network (or a
pure read), as opposed to a direct attribute/dataframe assignment. -/
def isDirectAssignment : NetOp → Bool
  | .snapshotWeightingsAssign => true
  | .locAssign _ _ _ => true
  | _ => false

/-- Sequential execution of the notebook cells: each step invokes the
external library through the oracle `ext`; there is no `try`/`except`
anywhere in the notebooks, so the first failure aborts the run with the
external error unchanged. -/
def runSteps (ext : NetOp → Except String Unit) : List NetOp → Except String Unit
  | [] => .ok ()
  | op :: rest =>
    match ext op with
    | .ok _ => runSteps ext rest
    | .error e => .error e

/-- The composed procedure of both notebooks. -/
def runNotebooks (ext : NetOp → Except String Unit) : Except String Unit :=
  runSteps ext allSteps

/-- Ordering of supply offers (marginal cost, capacity) by cost. -/
def costRel (a b : ℚ × ℚ) : Prop := a.1 ≤ b.1

instance costRelDecidable : DecidableRel costRel :=
  fun a b => inferInstanceAs (Decidable (a.1 ≤ b.1))

instance costRelTotal : IsTotal (ℚ × ℚ) costRel := ⟨fun a b => le_total a.1 b.1⟩

instance costRelTrans : IsTrans (ℚ × ℚ) costRel :=
  ⟨fun _ _ _ h1 h2 => le_trans h1 h2⟩

/-- Modelled from the spec: the external library's `optimize` call and its
marginal prices are not under `src/` (only the notebook callers are).  The
spec glossary defines the marginal price as the shadow price of the
market-clearing condition at a node; for a single node and snapshot this
is the cost of the marginal (price-setting) offer in the merit order:
offers are sorted by marginal cost, dispatched in that order until demand
is met, and the clearing price is the cost of the offer that serves the
last unit of demand. -/
def meritOrder (offers : List (ℚ × ℚ)) : List (ℚ × ℚ) :=
  offers.insertionSort costRel

/-- Modelled from the spec: walk the merit order, serving demand `d`; the
price is the cost of the offer at which cumulative capacity first covers
`d`; `none` when total capacity falls short of demand. -/
def priceFrom : List (ℚ × ℚ) → ℚ → Option ℚ
  | [], _ => none
  | (c, cap) :: rest, d => if d ≤ cap then some c else priceFrom rest (d - cap)

/-- Modelled from the spec: the market-clearing price at one snapshot
given the supply offers and the demand. -/
def clearingPrice (offers : List (ℚ × ℚ)) (d : ℚ) : Option ℚ :=
  priceFrom (meritOrder offers) d

/-- Everything the notebooks derive themselves from the downloaded data
and from a marginal-price column: the processed costs table, the marginal
and capital cost expressions, the fixed network construction sequence, and
the price-duration series. -/
def deriveAll (rows : List CostRow) (vom fuel efficiency a fom investment : ℚ)
    (prices : List ℚ) :
    List CostRow × ℚ × ℚ × List NetOp × Option Series :=
  (preprocessCosts rows,
   marginal_cost vom fuel efficiency,
   capital_cost a fom investment,
   allSteps,
   get_price_duration prices)

/-! ## Theorems -/

/-- Finite geometric sum over `Finset.Icc 1 n`. -/
theorem geom_sum_Icc (y : ℚ) (hy : y ≠ 1) (n : ℕ) :
    ∑ t in Finset.Icc 1 n, y ^ t = y * (1 - y ^ n) / (1 - y) := by
  induction n with
  | zero => simp
  | succ m ih =>
      rw [Finset.sum_Icc_succ_top (Nat.succ_le_succ (Nat.zero_le m)), ih]
      have h1 : (1 : ℚ) - y ≠ 0 := sub_ne_zero.mpr (Ne.symm hy)
      field_simp
      ring

/-- C1: for every discount rate `r > 0` and integer lifetime `n ≥ 1`,
`annuity r n` returns the closed-form annuity factor
`r / (1 - 1/(1+r)^n)`, which is the unique constant yearly payment whose
discounted sum over `n` years at rate `r` equals 1. -/
theorem annuity_discounted_sum (r : ℚ) (n : ℕ) (hr : 0 < r) (hn : 1 ≤ n) :
    ∃ a, annuity r n = some a ∧ a = r / (1 - 1 / (1 + r) ^ n) ∧
      (∑ t in Finset.Icc 1 n, a / (1 + r) ^ t) = 1 ∧
      ∀ c : ℚ, (∑ t in Finset.Icc 1 n, c / (1 + r) ^ t) = 1 → c = a := by
  have hx1 : (1 : ℚ) < 1 + r := by linarith
  have hx0 : (0 : ℚ) < 1 + r := by linarith
  have hxne : (1 + r) ≠ 0 := ne_of_gt hx0
  have hpow1 : 1 < (1 + r) ^ n := one_lt_pow₀ hx1 (by omega)
  have hpow0 : (0 : ℚ) < (1 + r) ^ n := by positivity
  have hpe : (1 + r) ^ n ≠ 0 := ne_of_gt hpow0
  have hfrac : 1 / (1 + r) ^ n < 1 := (div_lt_one hpow0).mpr hpow1
  have hfrac0 : 0 < 1 / (1 + r) ^ n := by positivity
  have hden : 0 < 1 - 1 / (1 + r) ^ n := by linarith
  have hdne : 1 - 1 / (1 + r) ^ n ≠ 0 := ne_of_gt hden
  have hy1 : (1 : ℚ) / (1 + r) ≠ 1 := by
    have : (1 : ℚ) / (1 + r) < 1 := (div_lt_one hx0).mpr hx1
    exact ne_of_lt this
  have hterm : ∀ (c : ℚ) (t : ℕ), c / (1 + r) ^ t = c * (1 / (1 + r)) ^ t := by
    intro c t
    rw [div_pow, one_pow, mul_one_div]
  have hS : ∀ c : ℚ, (∑ t in Finset.Icc 1 n, c / (1 + r) ^ t)
      = c * ((1 / (1 + r)) * (1 - (1 / (1 + r)) ^ n) / (1 - 1 / (1 + r))) := by
    intro c
    calc ∑ t in Finset.Icc 1 n, c / (1 + r) ^ t
        = ∑ t in Finset.Icc 1 n, c * (1 / (1 + r)) ^ t :=
          Finset.sum_congr rfl (fun t _ => hterm c t)
      _ = c * ∑ t in Finset.Icc 1 n, (1 / (1 + r)) ^ t := by rw [Finset.mul_sum]
      _ = _ := by rw [geom_sum_Icc (1 / (1 + r)) hy1 n]
  have hS0 : (1 / (1 + r)) * (1 - (1 / (1 + r)) ^ n) / (1 - 1 / (1 + r))
      = (1 - 1 / (1 + r) ^ n) / r := by
    have e1 : 1 - 1 / (1 + r) = r / (1 + r) := by field_simp
    rw [div_pow, one_pow, e1, div_div_eq_mul_div]
    congr 1
    field_simp
    ring
  have hS0pos : 0 < (1 - 1 / (1 + r) ^ n) / r := div_pos hden hr
  have hsum1 : (∑ t in Finset.Icc 1 n,
      (r / (1 - 1 / (1 + r) ^ n)) / (1 + r) ^ t) = 1 := by
    rw [hS, hS0, div_mul_div_comm,
      div_eq_one_iff_eq (mul_ne_zero hdne hr.ne')]
    ring
  refine ⟨r / (1 - 1 / (1 + r) ^ n), ?_, rfl, hsum1, ?_⟩
  · simp only [annuity]
    rw [if_neg hpe, if_neg hdne]
  · intro c hc
    rw [hS, hS0] at hc hsum1
    exact mul_right_cancel₀ (ne_of_gt hS0pos) (hc.trans hsum1.symm)

/-- C1 witness at `r = 1`, `n = 2`. -/
theorem annuity_discounted_sum_witness :
    ∃ a, annuity 1 2 = some a ∧ a = 1 / (1 - 1 / (1 + 1) ^ 2) ∧
      (∑ t in Finset.Icc 1 2, a / (1 + 1) ^ t) = 1 ∧
      ∀ c : ℚ, (∑ t in Finset.Icc 1 2, c / (1 + 1) ^ t) = 1 → c = a :=
  annuity_discounted_sum 1 2 (by norm_num) (by norm_num)

/-- C8: the denominator `1 - 1/(1+r)^n` of `annuity` is nonzero whenever
`r > 0` (and `n ≥ 1`), so the division is safe under that precondition;
for `r = 0` the denominator is exactly zero and the call fails with a
division-by-zero; and the `fillna` default of 0.07 shields only missing
discount rates, not a discount rate stored as 0. -/
theorem annuity_denominator_safety (r : ℚ) (n : ℕ) :
    (0 < r → 1 ≤ n →
      1 - 1 / (1 + r) ^ n ≠ 0 ∧
      annuity r n = some (r / (1 - 1 / (1 + r) ^ n))) ∧
    (r = 0 → 1 - 1 / (1 + r) ^ n = 0 ∧ annuity r n = none) ∧
    fillCell "discount rate" (some 0) = some 0 := by
  refine ⟨?_, ?_, rfl⟩
  · intro hr hn
    have hx1 : (1 : ℚ) < 1 + r := by linarith
    have hpow1 : 1 < (1 + r) ^ n := one_lt_pow₀ hx1 (by omega)
    have hpow0 : (0 : ℚ) < (1 + r) ^ n := by positivity
    have hpe : (1 + r) ^ n ≠ 0 := ne_of_gt hpow0
    have hfrac : 1 / (1 + r) ^ n < 1 := (div_lt_one hpow0).mpr hpow1
    have hdne : 1 - 1 / (1 + r) ^ n ≠ 0 := by
      have : 0 < 1 - 1 / (1 + r) ^ n := by linarith
      exact ne_of_gt this
    refine ⟨hdne, ?_⟩
    simp only [annuity]
    rw [if_neg hpe, if_neg hdne]
  · intro h0
    subst h0
    norm_num [annuity]

/-- C8 witness at `r = 1, n = 2` and at `r = 0, n = 2`. -/
theorem annuity_denominator_safety_witness :
    (1 - 1 / (1 + (1 : ℚ)) ^ 2 ≠ 0 ∧
      annuity 1 2 = some (1 / (1 - 1 / (1 + 1) ^ 2))) ∧
    (1 - 1 / (1 + (0 : ℚ)) ^ 2 = 0 ∧ annuity 0 2 = none) :=
  ⟨(annuity_denominator_safety 1 2).1 (by norm_num) (by norm_num),
   (annuity_denominator_safety 0 2).2.1 rfl⟩

/-- C9: `get_price_duration` requires a non-empty price series: for a
marginal-price column of length zero the index-rescaling step
`100 / len(s.index)` divides by zero and the function fails rather than
returning an empty series. -/
theorem get_price_duration_empty (prices : List ℚ) (h : prices.length = 0) :
    get_price_duration prices = none := by
  simp [get_price_duration, h]

/-- C9 witness on the empty column. -/
theorem get_price_duration_empty_witness :
    get_price_duration [] = none :=
  get_price_duration_empty [] rfl

/-- C2: for a non-empty marginal-price column, `get_price_duration`
returns a series whose values are exactly the input prices rearranged into
non-increasing order: a sorted permutation of the input, with no price
added, dropped, or altered. -/
theorem get_price_duration_sorted_perm (prices : List ℚ) (h : prices ≠ []) :
    ∃ s : Series, get_price_duration prices = some s ∧
      s.values.Perm prices ∧ List.Sorted descRel s.values := by
  have hlen : ¬ prices.length = 0 := by
    simpa [List.length_eq_zero] using h
  refine ⟨{ index := arange 0 100 (100 / (prices.length : ℚ))
            values := prices.insertionSort descRel }, ?_, ?_, ?_⟩
  · simp [get_price_duration, hlen]
  · exact List.perm_insertionSort descRel prices
  · exact List.sorted_insertionSort descRel prices

/-- C2 witness on the column `[3, 1, 2]`. -/
theorem get_price_duration_sorted_perm_witness :
    ∃ s : Series, get_price_duration [3, 1, 2] = some s ∧
      s.values.Perm [3, 1, 2] ∧ List.Sorted descRel s.values :=
  get_price_duration_sorted_perm [3, 1, 2] (by simp)

/-- C3: for a non-empty price column of length `L`, the index of the
series returned by `get_price_duration` consists of exactly the `L`
equally spaced percentage points `0, 100/L, ..., (L-1)*100/L`; hence the
index has the same length as the price data and every index value lies in
`[0, 100)`, with the `k`-th largest price sitting at position `k*100/L`. -/
theorem get_price_duration_index (prices : List ℚ) (h : prices ≠ []) :
    ∃ s : Series, get_price_duration prices = some s ∧
      s.index = (List.range prices.length).map
        (fun k : ℕ => (k : ℚ) * (100 / (prices.length : ℚ))) ∧
      s.index.length = prices.length ∧
      ∀ x ∈ s.index, 0 ≤ x ∧ x < 100 := by
  have hlen : ¬ prices.length = 0 := by
    simpa [List.length_eq_zero] using h
  have hL : 0 < prices.length := Nat.pos_of_ne_zero hlen
  have hLQ : (0 : ℚ) < (prices.length : ℚ) := by exact_mod_cast hL
  have hLne : (prices.length : ℚ) ≠ 0 := ne_of_gt hLQ
  have hstep : (0 : ℚ) < 100 / (prices.length : ℚ) := by positivity
  have hcount : (100 : ℚ) - 0 = 100 := sub_zero 100
  have hdiv : (100 : ℚ) / (100 / (prices.length : ℚ)) = (prices.length : ℚ) := by
    field_simp
  have harange : arange 0 100 (100 / (prices.length : ℚ))
      = (List.range prices.length).map
        (fun k : ℕ => (k : ℚ) * (100 / (prices.length : ℚ))) := by
    rw [arange, if_neg (not_le.mpr hstep), hcount, hdiv,
      Int.ceil_natCast, Int.toNat_natCast]
    simp [zero_add]
  refine ⟨{ index := arange 0 100 (100 / (prices.length : ℚ))
            values := prices.insertionSort descRel }, ?_, harange, ?_, ?_⟩
  · simp [get_price_duration, hlen]
  · rw [harange]
    simp
  · intro x hx
    rw [harange] at hx
    obtain ⟨k, hk, rfl⟩ := List.mem_map.mp hx
    have hkL : k < prices.length := List.mem_range.mp hk
    have hkQ : (k : ℚ) < (prices.length : ℚ) := by exact_mod_cast hkL
    have hmul : (prices.length : ℚ) * (100 / (prices.length : ℚ)) = 100 := by
      field_simp
    constructor
    · exact mul_nonneg (Nat.cast_nonneg k) (le_of_lt hstep)
    · calc (k : ℚ) * (100 / (prices.length : ℚ))
          < (prices.length : ℚ) * (100 / (prices.length : ℚ)) :=
            mul_lt_mul_of_pos_right hkQ hstep
        _ = 100 := hmul

/-- C3 witness on the column `[5, 7]`. -/
theorem get_price_duration_index_witness :
    ∃ s : Series, get_price_duration [5, 7] = some s ∧
      s.index = (List.range (List.length [(5 : ℚ), 7])).map
        (fun k : ℕ => (k : ℚ) * (100 / (List.length [(5 : ℚ), 7] : ℚ))) ∧
      s.index.length = List.length [(5 : ℚ), 7] ∧
      ∀ x ∈ s.index, 0 ≤ x ∧ x < 100 :=
  get_price_duration_index [5, 7] (by simp)

/-- C10: the cost preprocessing multiplies the value of exactly those rows
whose unit contains `"/kW"` by 1000 and leaves every other row unchanged;
afterwards `fillna` fills missing entries only in the discount rate
(0.07), lifetime (20) and FOM (0) columns, and every value already present
is left untouched. -/
theorem costs_preprocessing_frame (row : CostRow) (p : String) (x : ℚ) :
    (strContains row.unit "/kW" = true →
      scaleKW row = { row with value := row.value.map (fun v => v * 1000) }) ∧
    (strContains row.unit "/kW" = false → scaleKW row = row) ∧
    fillCell p (some x) = some x ∧
    fillCell "discount rate" none = some (7 / 100) ∧
    fillCell "lifetime" none = some 20 ∧
    fillCell "FOM" none = some 0 ∧
    (p ≠ "discount rate" → p ≠ "lifetime" → p ≠ "FOM" →
      fillCell p none = none) := by
  refine ⟨?_, ?_, rfl, rfl, rfl, rfl, ?_⟩
  · intro hc
    simp [scaleKW, hc]
  · intro hc
    simp [scaleKW, hc]
  · intro h1 h2 h3
    simp [fillCell, fillnaDefaults, h1, h2, h3]

/-- C10 witness: a `/kW` row is rescaled, a non-`/kW` row kept, and a
missing cell of an unlisted column stays missing. -/
theorem costs_preprocessing_frame_witness :
    (strContains "EUR/kW" "/kW" = true ∧
      scaleKW ⟨"onwind", "investment", some 910, "EUR/kW"⟩
        = { (⟨"onwind", "investment", some 910, "EUR/kW"⟩ : CostRow) with
            value := (some (910 : ℚ)).map (fun v => v * 1000) }) ∧
    (strContains "EUR/MWh" "/kW" = false ∧
      scaleKW ⟨"onwind", "VOM", some 1, "EUR/MWh"⟩
        = ⟨"onwind", "VOM", some 1, "EUR/MWh"⟩) ∧
    fillCell "VOM" none = none :=
  ⟨⟨by decide,
    (costs_preprocessing_frame ⟨"onwind", "investment", some 910, "EUR/kW"⟩
      "VOM" 1).1 (by decide)⟩,
   ⟨by decide,
    (costs_preprocessing_frame ⟨"onwind", "VOM", some 1, "EUR/MWh"⟩
      "VOM" 1).2.1 (by decide)⟩,
   (costs_preprocessing_frame ⟨"onwind", "VOM", some 1, "EUR/MWh"⟩
      "VOM" 1).2.2.2.2.2.2 (by decide) (by decide) (by decide)⟩

/-- C4 counterexample: the demand-elasticity notebook changes attributes
of the already-added load-shedding generator through a direct dataframe
assignment (`n.generators.loc["load-shedding", "p_nom_max"] *= 0.2`), a
network mutation that is not an `add`, `remove`, or `optimize` call, and
it happens before the final results are plotted or tabulated. -/
theorem notebook_direct_mutation_counterexample :
    NetOp.locAssign "generators" "load-shedding" "p_nom_max" ∈ elasticitySteps ∧
    mutatesNetwork (NetOp.locAssign "generators" "load-shedding" "p_nom_max") = true ∧
    isAddRemoveOptimize
      (NetOp.locAssign "generators" "load-shedding" "p_nom_max") = false := by
  decide

/-- C4 (amended): every construction or mutation of the network object in
the notebooks is a high-level API call (`add`, `remove`, `optimize`, plus
network construction, example loading and `set_snapshots`) EXCEPT exactly
three direct attribute assignments: the snapshot-weightings assignment in
the capacity-expansion notebook and the two `generators.loc` updates of
the load-shedding generator in the demand-elasticity notebook. -/
theorem notebook_mutations_classified :
    ∀ op ∈ allSteps, mutatesNetwork op = true →
      (isAddRemoveOptimize op = true ∨ op = .newNetwork ∨
        op = .loadExample "model_energy" ∨ op = .set_snapshots ∨
        op = .snapshotWeightingsAssign ∨
        op = .locAssign "generators" "load-shedding" "p_nom_max" ∨
        op = .locAssign "generators" "load-shedding" "marginal_cost_quadratic") := by
  decide

/-- C4 witness at the `add Bus electricity` step. -/
theorem notebook_mutations_classified_witness :
    isAddRemoveOptimize (NetOp.add "Bus" "electricity") = true ∨
      NetOp.add "Bus" "electricity" = .newNetwork ∨
      NetOp.add "Bus" "electricity" = .loadExample "model_energy" ∨
      NetOp.add "Bus" "electricity" = .set_snapshots ∨
      NetOp.add "Bus" "electricity" = .snapshotWeightingsAssign ∨
      NetOp.add "Bus" "electricity"
        = .locAssign "generators" "load-shedding" "p_nom_max" ∨
      NetOp.add "Bus" "electricity"
        = .locAssign "generators" "load-shedding" "marginal_cost_quadratic" :=
  notebook_mutations_classified (NetOp.add "Bus" "electricity")
    (by decide) (by decide)

/-- A run succeeds iff every external call on the step list succeeds. -/
theorem runSteps_ok_iff (ext : NetOp → Except String Unit) (steps : List NetOp) :
    runSteps ext steps = .ok () ↔ ∀ op ∈ steps, ext op = .ok () := by
  induction steps with
  | nil => simp [runSteps]
  | cons op rest ih =>
    cases h : ext op with
    | ok u =>
      cases u
      simp [runSteps, h, ih]
    | error e => simp [runSteps, h]

/-- A run fails with `e` iff the first failing external call raised
exactly `e`, every call before it having succeeded. -/
theorem runSteps_error_iff (ext : NetOp → Except String Unit) (e : String)
    (steps : List NetOp) :
    runSteps ext steps = .error e ↔
      ∃ pre op post, steps = pre ++ op :: post ∧
        (∀ o ∈ pre, ext o = .ok ()) ∧ ext op = .error e := by
  induction steps with
  | nil =>
    simp only [runSteps]
    constructor
    · intro hcontr; cases hcontr
    · rintro ⟨pre, op, post, hsteps, -, -⟩
      exact absurd hsteps (by simp)
  | cons a rest ih =>
    cases h : ext a with
    | ok u =>
      cases u
      rw [show runSteps ext (a :: rest) = runSteps ext rest from by
        simp [runSteps, h]]
      rw [ih]
      constructor
      · rintro ⟨pre, op, post, rfl, hpre, hop⟩
        refine ⟨a :: pre, op, post, rfl, ?_, hop⟩
        intro o ho
        rcases List.mem_cons.mp ho with rfl | ho'
        · exact h
        · exact hpre o ho'
      · rintro ⟨pre, op, post, hsteps, hpre, hop⟩
        cases pre with
        | nil =>
          simp only [List.nil_append, List.cons.injEq] at hsteps
          obtain ⟨rfl, rfl⟩ := hsteps
          rw [h] at hop
          cases hop
        | cons b pre' =>
          simp only [List.cons_append, List.cons.injEq] at hsteps
          obtain ⟨rfl, hrest⟩ := hsteps
          exact ⟨pre', op, post, hrest,
            fun o ho => hpre o (List.mem_cons_of_mem _ ho), hop⟩
    | error e2 =>
      rw [show runSteps ext (a :: rest) = .error e2 from by
        simp [runSteps, h]]
      constructor
      · intro he
        cases he
        exact ⟨[], a, rest, rfl, by simp, h⟩
      · rintro ⟨pre, op, post, hsteps, hpre, hop⟩
        cases pre with
        | nil =>
          simp only [List.nil_append, List.cons.injEq] at hsteps
          obtain ⟨rfl, rfl⟩ := hsteps
          rw [h] at hop
          exact hop
        | cons b pre' =>
          simp only [List.cons_append, List.cons.injEq] at hsteps
          obtain ⟨rfl, -⟩ := hsteps
          have hb := hpre a (List.mem_cons_self a pre')
          rw [h] at hb
          cases hb

/-- C5: no notebook code catches, transforms or recovers from any
exception: the composed notebook procedure succeeds exactly when every
external call succeeds, and when it fails the surfaced error is the one
raised by the first failing external call, unchanged. -/
theorem notebooks_propagate_errors (ext : NetOp → Except String Unit) :
    (runNotebooks ext = .ok () ↔ ∀ op ∈ allSteps, ext op = .ok ()) ∧
    ∀ e, runNotebooks ext = .error e ↔
      ∃ pre op post, allSteps = pre ++ op :: post ∧
        (∀ o ∈ pre, ext o = .ok ()) ∧ ext op = .error e :=
  ⟨runSteps_ok_iff ext allSteps, fun e => runSteps_error_iff ext e allSteps⟩

/-- C5 witness under an oracle on which every external call succeeds. -/
theorem notebooks_propagate_errors_witness :
    runNotebooks (fun _ => .ok ()) = .ok () :=
  ((notebooks_propagate_errors (fun _ => .ok ())).1).mpr (fun _ _ => rfl)

/-- In a cost-sorted offer list with nonnegative capacities, if some offer
costing at most `V` can cover the whole remaining demand by itself, the
merit-order price exists and is at most `V`. -/
theorem priceFrom_le_of_cheap_cover (V : ℚ) :
    ∀ (l : List (ℚ × ℚ)) (d : ℚ), List.Sorted costRel l →
      (∀ x ∈ l, 0 ≤ x.2) →
      (∃ x ∈ l, x.1 ≤ V ∧ d ≤ x.2) →
      ∃ p, priceFrom l d = some p ∧ p ≤ V := by
  intro l
  induction l with
  | nil =>
    intro d _ _ hw
    simp at hw
  | cons hd rest ih =>
    intro d hsorted hcap hw
    obtain ⟨c, cap⟩ := hd
    by_cases hdle : d ≤ cap
    · refine ⟨c, by simp [priceFrom, hdle], ?_⟩
      obtain ⟨x, hx, hxV, hxd⟩ := hw
      rcases List.mem_cons.mp hx with rfl | hx'
      · exact hxV
      · exact le_trans ((List.sorted_cons.mp hsorted).1 x hx') hxV
    · have hcap0 : 0 ≤ cap := hcap (c, cap) (List.mem_cons_self _ _)
      obtain ⟨x, hx, hxV, hxd⟩ := hw
      rcases List.mem_cons.mp hx with rfl | hx'
      · exact absurd hxd hdle
      · obtain ⟨p, hp, hpV⟩ := ih (d - cap) (List.sorted_cons.mp hsorted).2
          (fun y hy => hcap y (List.mem_cons_of_mem _ hy))
          ⟨x, hx', hxV, by linarith⟩
        exact ⟨p, by simp [priceFrom, hdle, hp], hpV⟩

/-- C6: in the VOLL configuration, with a load-shedding offer of marginal
cost 2000 whose fixed capacity is at least the demand of the snapshot
(capacity at least peak demand), the market-clearing price exists and
never exceeds 2000: VOLL acts as a cap price for the cost of unmet
demand. -/
theorem voll_caps_clearing_price (offers : List (ℚ × ℚ)) (cap d : ℚ)
    (hmem : ((2000 : ℚ), cap) ∈ offers) (hcap : d ≤ cap)
    (hnonneg : ∀ x ∈ offers, 0 ≤ x.2) :
    ∃ p, clearingPrice offers d = some p ∧ p ≤ 2000 := by
  simp only [clearingPrice, meritOrder]
  apply priceFrom_le_of_cheap_cover
  · exact List.sorted_insertionSort costRel offers
  · intro x hx
    exact hnonneg x ((List.mem_insertionSort costRel).mp hx)
  · exact ⟨(2000, cap), (List.mem_insertionSort costRel).mpr hmem, le_refl _, hcap⟩

/-- C6 witness: wind at cost 5 (50 MW), load shedding at cost 2000
(100 MW), gas at cost 10 (30 MW), demand 100 MW. -/
theorem voll_caps_clearing_price_witness :
    ∃ p, clearingPrice [(5, 50), (2000, 100), (10, 30)] 100 = some p ∧
      p ≤ 2000 :=
  voll_caps_clearing_price [(5, 50), (2000, 100), (10, 30)] 100 100
    (by decide) (le_refl 100) (by decide)

/-- C7: the computations defined in this repository are deterministic
functions of their inputs: for any two runs given identical downloaded
cost data, identical cost parameters, and identical marginal-price
columns, every derived quantity (processed costs, marginal and capital
costs, the network construction sequence, and the price-duration series)
is identical across the two runs. -/
theorem notebook_computations_deterministic
    (rows₁ rows₂ : List CostRow) (v₁ v₂ f₁ f₂ e₁ e₂ a₁ a₂ m₁ m₂ i₁ i₂ : ℚ)
    (p₁ p₂ : List ℚ)
    (hrows : rows₁ = rows₂) (hv : v₁ = v₂) (hf : f₁ = f₂) (he : e₁ = e₂)
    (ha : a₁ = a₂) (hm : m₁ = m₂) (hi : i₁ = i₂) (hp : p₁ = p₂) :
    deriveAll rows₁ v₁ f₁ e₁ a₁ m₁ i₁ p₁
      = deriveAll rows₂ v₂ f₂ e₂ a₂ m₂ i₂ p₂ := by
  subst hrows hv hf he ha hm hi hp
  rfl

/-- C7 witness on two textually separate but equal inputs. -/
theorem notebook_computations_deterministic_witness :
    deriveAll [] 1 2 3 4 5 6 [7] = deriveAll [] 1 2 3 4 5 6 [7] :=
  notebook_computations_deterministic [] [] 1 1 2 2 3 3 4 4 5 5 6 6 [7] [7]
    rfl rfl rfl rfl rfl rfl rfl rfl
